import Mathlib

/-!
Verification of the bishe target-discovery engine: a shallow embedding of
the path-execution loop (`planner_system.py`), the tool executor
(`executor.py`), the cross-path deduplicator and verification filter
(`graph_system.py`), the evidence-fusion / novelty classifier
(`PlannerSystem._ensure_novelty_notes`) and the playbook learning store
(`playbook.py`), together with theorems settling the specification claims.
-/

namespace Bishe

/-! ## Playbook (playbook.py) -/

/-- One escaped character of a Python-repr-style string encoding:
backslash and quote are escaped with a leading backslash, every other
character stands for itself.  Models the escaping Python's `repr` applies
when `str()` renders a list of strings. -/
def escChar (c : Char) : List Char :=
  if c = '\\' ∨ c = '\'' then ['\\', c] else [c]

/-- Escape a whole string (as a list of characters). -/
def escStr : List Char → List Char
  | [] => []
  | c :: rest => escChar c ++ escStr rest

/-- Tail of the Python `str()` rendering of a list of strings: after the
first element, each further element is preceded by `", "`, and the whole
list is closed with `]`. -/
def encTail : List (List Char) → List Char
  | [] => [']']
  | s :: rest => ',' :: ' ' :: '\'' :: (escStr s ++ '\'' :: encTail rest)

/-- Python `str()` of a list of strings, e.g. `['a', 'b']`, at the level
of character lists. -/
def pyListChars : List (List Char) → List Char
  | [] => ['[', ']']
  | s :: rest => '[' :: '\'' :: (escStr s ++ '\'' :: encTail rest)

theorem escStr_quote_inj :
    ∀ (s1 s2 r1 r2 : List Char),
      escStr s1 ++ '\'' :: r1 = escStr s2 ++ '\'' :: r2 → s1 = s2 ∧ r1 = r2 := by
  intro s1
  induction s1 with
  | nil =>
    intro s2 r1 r2 h
    cases s2 with
    | nil =>
      simp only [escStr, List.nil_append, List.cons.injEq] at h
      exact ⟨rfl, h.2⟩
    | cons d ds =>
      by_cases hd : d = '\\' ∨ d = '\''
      · simp only [escStr, escChar, if_pos hd, List.nil_append, List.cons_append,
          List.cons.injEq] at h
        rcases h with ⟨h1, _⟩
        cases h1
      · simp only [escStr, escChar, if_neg hd, List.nil_append, List.cons_append,
          List.cons.injEq] at h
        rcases h with ⟨h1, _⟩
        exact absurd (Or.inr h1.symm) hd
  | cons c cs ih =>
    intro s2 r1 r2 h
    cases s2 with
    | nil =>
      by_cases hc : c = '\\' ∨ c = '\''
      · simp only [escStr, escChar, if_pos hc, List.nil_append, List.cons_append,
          List.cons.injEq] at h
        rcases h with ⟨h1, _⟩
        cases h1
      · simp only [escStr, escChar, if_neg hc, List.nil_append, List.cons_append,
          List.cons.injEq] at h
        rcases h with ⟨h1, _⟩
        exact absurd (Or.inr h1) hc
    | cons d ds =>
      by_cases hc : c = '\\' ∨ c = '\'' <;> by_cases hd : d = '\\' ∨ d = '\''
      · simp only [escStr, escChar, if_pos hc, if_pos hd, List.cons_append,
          List.append_assoc, List.cons.injEq] at h
        rcases h with ⟨_, hcd, htail⟩
        obtain ⟨hs, hr⟩ := ih ds r1 r2 (by simpa using htail)
        exact ⟨by rw [hcd, hs], hr⟩
      · simp only [escStr, escChar, if_pos hc, if_neg hd, List.cons_append,
          List.append_assoc, List.cons.injEq] at h
        rcases h with ⟨h1, _⟩
        exact absurd (Or.inl h1.symm) hd
      · simp only [escStr, escChar, if_neg hc, if_pos hd, List.cons_append,
          List.append_assoc, List.cons.injEq] at h
        rcases h with ⟨h1, _⟩
        exact absurd (Or.inl h1) hc
      · simp only [escStr, escChar, if_neg hc, if_neg hd, List.cons_append,
          List.append_assoc, List.cons.injEq] at h
        rcases h with ⟨h1, htail⟩
        obtain ⟨hs, hr⟩ := ih ds r1 r2 (by simpa using htail)
        exact ⟨by rw [h1, hs], hr⟩

theorem encTail_inj :
    ∀ (t1 t2 : List (List Char)), encTail t1 = encTail t2 → t1 = t2 := by
  intro t1
  induction t1 with
  | nil =>
    intro t2 h
    cases t2 with
    | nil => rfl
    | cons s rest => simp [encTail] at h
  | cons s rest ih =>
    intro t2 h
    cases t2 with
    | nil => simp [encTail] at h
    | cons s' rest' =>
      simp only [encTail, List.cons.injEq, eq_self_iff_true, true_and] at h
      obtain ⟨hs, hr⟩ := escStr_quote_inj s s' (encTail rest) (encTail rest') h
      rw [hs, ih rest' hr]

theorem pyListChars_inj :
    ∀ (t1 t2 : List (List Char)), pyListChars t1 = pyListChars t2 → t1 = t2 := by
  intro t1 t2 h
  cases t1 with
  | nil =>
    cases t2 with
    | nil => rfl
    | cons s rest => simp [pyListChars] at h
  | cons s rest =>
    cases t2 with
    | nil => simp [pyListChars] at h
    | cons s' rest' =>
      simp only [pyListChars, List.cons.injEq, eq_self_iff_true, true_and] at h
      obtain ⟨hs, hr⟩ := escStr_quote_inj s s' (encTail rest) (encTail rest') h
      rw [hs, encTail_inj rest rest' hr]

/-- The trace data handed to `Playbook.add_strategy`: the three fields
entering the fingerprint (`task`, `status`, `steps_summary`, the last being
the ordered step names of the path). -/
structure TraceData where
  task : String
  status : String
  stepsSummary : List String
deriving DecidableEq, Repr

/-- Character-level fingerprint string `f"{task}-{status}-{str(steps)}"`
from `Playbook.add_strategy`. -/
def fpChars (t : TraceData) : List Char :=
  t.task.data ++ '-' :: (t.status.data ++ '-' :: pyListChars (t.stepsSummary.map String.data))

/-- The fingerprint of a trace.  `add_strategy` feeds `fpChars` through
`hashlib.md5(...).hexdigest()`; the hash is a fixed deterministic function
of the string and is modelled here by the string itself. -/
def fingerprintOf (t : TraceData) : String :=
  String.mk (fpChars t)

/-- A stored playbook entry (`id`, `type` and `created_at` carry no logic
and are omitted). -/
structure PBEntry where
  fingerprint : String
  data : TraceData
deriving DecidableEq, Repr

/-- `Playbook.add_strategy`: no-op if some stored entry already has the
fingerprint, otherwise append a new entry. -/
def addStrategy (strategies : List PBEntry) (t : TraceData) : List PBEntry :=
  if strategies.any (fun s => s.fingerprint = fingerprintOf t) then strategies
  else strategies ++ [{ fingerprint := fingerprintOf t, data := t }]

theorem fingerprint_task_inj {t1 t2 : TraceData}
    (hs : t1.status = t2.status) (hl : t1.stepsSummary = t2.stepsSummary)
    (h : fingerprintOf t1 = fingerprintOf t2) : t1.task = t2.task := by
  have hc : fpChars t1 = fpChars t2 := congrArg String.data h
  unfold fpChars at hc
  rw [hs, hl] at hc
  have := List.append_cancel_right hc
  exact String.ext this

theorem fingerprint_status_inj {t1 t2 : TraceData}
    (ht : t1.task = t2.task) (hl : t1.stepsSummary = t2.stepsSummary)
    (h : fingerprintOf t1 = fingerprintOf t2) : t1.status = t2.status := by
  have hc : fpChars t1 = fpChars t2 := congrArg String.data h
  unfold fpChars at hc
  rw [ht, hl] at hc
  have h1 := List.append_cancel_left hc
  have h2 : t1.status.data ++ '-' :: pyListChars (List.map String.data t2.stepsSummary)
      = t2.status.data ++ '-' :: pyListChars (List.map String.data t2.stepsSummary) := by
    simpa using h1
  exact String.ext (List.append_cancel_right h2)

theorem fingerprint_steps_inj {t1 t2 : TraceData}
    (ht : t1.task = t2.task) (hs : t1.status = t2.status)
    (h : fingerprintOf t1 = fingerprintOf t2) : t1.stepsSummary = t2.stepsSummary := by
  have hc : fpChars t1 = fpChars t2 := congrArg String.data h
  unfold fpChars at hc
  rw [ht, hs] at hc
  have h1 := List.append_cancel_left hc
  have h2 := List.append_cancel_left (List.cons_injective h1)
  have h3 := List.cons_injective h2
  have h4 := pyListChars_inj _ _ h3
  have hdata : Function.Injective String.data := by
    intro a b hab
    exact String.ext hab
  exact List.map_injective_iff.mpr hdata h4

/-- Two traces differ in exactly one of the three fingerprint fields. -/
def DiffersInOneField (t1 t2 : TraceData) : Prop :=
  (t1.task ≠ t2.task ∧ t1.status = t2.status ∧ t1.stepsSummary = t2.stepsSummary) ∨
  (t1.task = t2.task ∧ t1.status ≠ t2.status ∧ t1.stepsSummary = t2.stepsSummary) ∨
  (t1.task = t2.task ∧ t1.status = t2.status ∧ t1.stepsSummary ≠ t2.stepsSummary)

theorem fingerprint_ne_of_differsInOneField {t1 t2 : TraceData}
    (h : DiffersInOneField t1 t2) : fingerprintOf t1 ≠ fingerprintOf t2 := by
  rcases h with ⟨hne, hs, hl⟩ | ⟨ht, hne, hl⟩ | ⟨ht, hs, hne⟩
  · exact fun hf => hne (fingerprint_task_inj hs hl hf)
  · exact fun hf => hne (fingerprint_status_inj ht hl hf)
  · exact fun hf => hne (fingerprint_steps_inj ht hs hf)

/-- C6: adding the same `(task, status, steps)` twice stores one entry and
the second call is a no-op; two adds differing in exactly one of the three
fields store two entries; and `add_strategy` preserves the invariant that
no two stored entries share a fingerprint. -/
theorem playbook_fingerprint_dedup :
    (∀ (l : List PBEntry) (t : TraceData),
        addStrategy (addStrategy l t) t = addStrategy l t) ∧
    (∀ t : TraceData, (addStrategy [] t).length = 1) ∧
    (∀ t1 t2 : TraceData, DiffersInOneField t1 t2 →
        (addStrategy (addStrategy [] t1) t2).length = 2) ∧
    (∀ (l : List PBEntry) (t : TraceData),
        (l.map PBEntry.fingerprint).Nodup →
        ((addStrategy l t).map PBEntry.fingerprint).Nodup) := by
  refine ⟨?_, ?_, ?_, ?_⟩
  · intro l t
    by_cases h : l.any (fun s => s.fingerprint = fingerprintOf t)
    · simp [addStrategy, h]
    · simp [addStrategy, h]
  · intro t
    simp [addStrategy]
  · intro t1 t2 h
    have hne := fingerprint_ne_of_differsInOneField h
    simp [addStrategy, hne]
  · intro l t hnd
    by_cases h : l.any (fun s => s.fingerprint = fingerprintOf t)
    · simpa [addStrategy, h] using hnd
    · have hnotin : fingerprintOf t ∉ l.map PBEntry.fingerprint := by
        intro hmem
        rcases List.mem_map.mp hmem with ⟨s, hsmem, heq⟩
        exact h (List.any_eq_true.mpr ⟨s, hsmem, by simp [heq]⟩)
      rw [addStrategy, if_neg h, List.map_append]
      refine List.Nodup.append hnd (by simp) ?_
      intro a ha hb
      simp only [List.map_cons, List.map_nil, List.mem_singleton] at hb
      subst hb
      exact hnotin ha

/-- C6 witness: two adds differing only in `status` store two entries. -/
theorem playbook_fingerprint_dedup_witness :
    (addStrategy (addStrategy [] ⟨"t", "success", ["run_omics"]⟩)
      ⟨"t", "failure", ["run_omics"]⟩).length = 2 :=
  playbook_fingerprint_dedup.2.2.1 ⟨"t", "success", ["run_omics"]⟩
    ⟨"t", "failure", ["run_omics"]⟩ (Or.inr (Or.inl ⟨rfl, by decide, rfl⟩))

/-! ## Shared data model (state.py, planner_system.py result shapes) -/

/-- The union of argument shapes a step's `args` dict can hold:
`genes` is either a single string (e.g. the `"<decide>"` placeholder) or a
list of gene names; `gene` is an optional single name. -/
structure ToolArgs where
  genes : Option (String ⊕ List String) := none
  gene : Option String := none
deriving DecidableEq, Repr

/-- One item of a tool result's `results` list: an omics row
(`gene_id`/`gene`, `log2fc`/`log2FoldChange`, `padj`, `is_significant`) or
an OpenTargets association row (`symbol`, `score`).  Missing keys are
`none`; the float-valued fields are modelled by integers since only their
presence and ordering matter to the engine. -/
structure ResItem where
  gene_id : Option String := none
  gene : Option String := none
  log2fc : Option Int := none
  padj : Option Int := none
  is_significant : Bool := false
  symbol : Option String := none
  name : Option String := none
  score : Option Int := none
deriving DecidableEq, Repr

/-- The `results` field of a tool result: the discovery-mode omics shape
(`top_upregulated`/`top_downregulated` dict) or a plain list
(verification-mode omics rows, OpenTargets rows, KG rows). -/
inductive ResultsField
  | discovery (topUp topDown : List ResItem)
  | vlist (items : List ResItem)
deriving DecidableEq, Repr

/-- One entry of a literature result's `gene_details` map. -/
structure GeneDetail where
  count : Nat := 0
  summary : String := ""
deriving DecidableEq, Repr

/-- One knowledge-graph evidence item as produced by `KGTool`. -/
structure KGEv where
  score : Int := 0
  source : String := ""
deriving DecidableEq, Repr

/-- A tool result map.  `Option` fields model presence/absence of the
corresponding dict key. -/
structure ResultMap where
  type : String := ""
  error : Option String := none
  status : Option String := none
  reason : Option String := none
  summary : Option String := none
  results : Option ResultsField := none
  gene_details : List (String × GeneDetail) := []
  n_results : Option Nat := none
  evidence : Option (List (String × List KGEv)) := none
deriving DecidableEq, Repr

/-- One entry of a path's history: `{step, args, result}`. -/
structure HistEntry where
  step : String
  args : ToolArgs
  result : ResultMap
deriving DecidableEq, Repr

/-- A step of a path: either a bare tool-name string or a
`{tool, args, reason?}` dict. -/
inductive StepItem
  | name (tool : String)
  | call (tool : String) (args : ToolArgs) (reason : Option String)
deriving DecidableEq, Repr

/-- The parsed decision dict returned by the oracle; `decision = none`
models an unparseable response or a response lacking the `decision` key
(`safe_parse_json` yields `{}` for those). -/
structure Decision where
  decision : Option String := none
  tool : Option String := none
  args : ToolArgs := {}
deriving DecidableEq, Repr

/-- A value of the `novelty_notes` map: either a `{novel, reason}` dict or
a bare truthiness flag (`entry["novel"] = bool(val)`). -/
inductive NovVal
  | note (novel : Bool) (reason : String)
  | flag (b : Bool)
deriving DecidableEq, Repr

/-- A raw synthesis candidate: either a bare string or a dict carrying
`gene`/`symbol` keys. -/
inductive CandVal
  | s (v : String)
  | obj (gene symbol : Option String)
deriving DecidableEq, Repr

/-- A synthesis object: the candidate list under its two accepted keys and
the novelty notes. -/
structure SynResult where
  candidate_targets : List CandVal := []
  candidates : List CandVal := []
  novelty_notes : List (String × NovVal) := []
deriving DecidableEq, Repr

/-- A merged candidate entry `{gene, novel, reason}` as built by
`GraphTargetDiscovery.deDuplicate`. -/
structure Candidate where
  gene : String
  novel : Bool
  reason : String
deriving DecidableEq, Repr

/-- The dict returned by `execute_path_with_reflection` on success. -/
structure SuccessResult where
  path_id : String
  history : List HistEntry
  synthesis : Option SynResult
  steps : List StepItem
deriving Repr

/-- A per-path result as the scheduler collects it; each `Option` field
models presence of the corresponding dict key (the failure dict built by
`run_single_path` carries only `error`). -/
structure PathResult where
  path_id : Option String := none
  error : Option String := none
  synthesis : Option SynResult := none
  history : Option (List HistEntry) := none
  steps : Option (List StepItem) := none
deriving Repr

/-- The worker boundary of `GraphTargetDiscovery.executor`
(`run_single_path`): a completed runner yields its result dict, an
uncaught exception is converted to `{"error": f"Path {id} failed: {e}"}`. -/
def runSinglePath (pathId : String) (r : Except String SuccessResult) : PathResult :=
  match r with
  | .ok sr => { path_id := some sr.path_id, error := none, synthesis := sr.synthesis,
                history := some sr.history, steps := some sr.steps }
  | .error e => { error := some ("Path " ++ pathId ++ " failed: " ++ e) }

/-! ## Cross-path deduplicator (GraphTargetDiscovery.deDuplicate) -/

/-- Python's `str.upper()` (character-wise upper-casing). -/
def pyUpper (s : String) : String := ⟨s.data.map Char.toUpper⟩

/-- Python's `str.startswith(pre)`. -/
def pyStartsWith (s pre : String) : Bool := pre.data.isPrefixOf s.data

/-- Python's `a or b` on two optional strings (empty string is falsy). -/
def pyOrStr (a b : Option String) : Option String :=
  match a with
  | some s => if s = "" then b else some s
  | none => b

/-- `c.get("gene") or c.get("symbol")` for a dict candidate, `str(c)` for
a bare one. -/
def rawNameOf : CandVal → Option String
  | .s v => some v
  | .obj gene symbol => pyOrStr gene symbol

/-- `syn.get("candidate_targets") or syn.get("candidates") or []`. -/
def candsOf (syn : SynResult) : List CandVal :=
  if syn.candidate_targets.isEmpty then
    (if syn.candidates.isEmpty then [] else syn.candidates)
  else syn.candidate_targets

/-- First-match association lookup (Python dict read). -/
def assocFind {β : Type} : List (String × β) → String → Option β
  | [], _ => none
  | p :: rest, k => if p.1 = k then some p.2 else assocFind rest k

/-- In-place value replacement at a key (Python dict write to an existing
key keeps its insertion position). -/
def assocUpdate (m : List (String × Candidate)) (k : String) (v : Candidate) :
    List (String × Candidate) :=
  m.map (fun p => if p.1 = k then (k, v) else p)

/-- Build the `{gene, novel, reason}` entry for one raw candidate,
consulting `novelty_notes` under the raw (non-normalized) name; without a
note the entry defaults to `novel = True`. -/
def mkEntry (novnotes : List (String × NovVal)) (geneRaw : String) : Candidate :=
  match assocFind novnotes geneRaw with
  | some (.note b r) => { gene := geneRaw, novel := b, reason := r }
  | some (.flag b) => { gene := geneRaw, novel := b, reason := "" }
  | none => { gene := geneRaw, novel := true, reason := "" }

/-- Fold one raw candidate into the dedup map: skip empty names, key by
the upper-cased name, and on a repeat key overwrite only when the stored
entry is novel and the new one is known. -/
def dedupInsert (novnotes : List (String × NovVal)) (m : List (String × Candidate))
    (c : CandVal) : List (String × Candidate) :=
  match rawNameOf c with
  | none => m
  | some g =>
    if g = "" then m
    else
      let key := (pyUpper g)
      let entry := mkEntry novnotes g
      match assocFind m key with
      | some old => if old.novel && !entry.novel then assocUpdate m key entry else m
      | none => m ++ [(key, entry)]

/-- Fold one path result into the dedup map; results carrying an `error`
key are skipped. -/
def dedupPath (m : List (String × Candidate)) (pr : PathResult) :
    List (String × Candidate) :=
  if pr.error.isSome then m
  else
    let syn := pr.synthesis.getD {}
    (candsOf syn).foldl (dedupInsert syn.novelty_notes) m

/-- `GraphTargetDiscovery.deDuplicate`: fold all path results into the map
and return its values. -/
def deDuplicate (prs : List PathResult) : List Candidate :=
  (prs.foldl dedupPath []).map Prod.snd

/-- The verification-mode post-filter of `GraphTargetDiscovery.synthesizer`:
for a verification task with a nonempty target, keep only candidates whose
upper-cased gene equals the upper-cased target. -/
def verificationFilter (taskType : String) (targetGene : String)
    (cands : List Candidate) : List Candidate :=
  if taskType = "verification" then
    let target := (pyUpper targetGene)
    if target ≠ "" then cands.filter (fun c => (pyUpper c.gene) = target)
    else cands
  else cands

/-- Map invariant: every stored key is the upper-cased gene of its entry. -/
def KeyInv (m : List (String × Candidate)) : Prop :=
  ∀ p ∈ m, p.1 = (pyUpper p.2.gene)

theorem assocFind_eq_none {β : Type} {m : List (String × β)} {k : String} :
    assocFind m k = none ↔ ∀ p ∈ m, p.1 ≠ k := by
  induction m with
  | nil => simp [assocFind]
  | cons p rest ih =>
    by_cases h : p.1 = k
    · simp [assocFind, h]
    · simp [assocFind, h, ih]

theorem mkEntry_gene (nn : List (String × NovVal)) (g : String) :
    (mkEntry nn g).gene = g := by
  unfold mkEntry
  cases assocFind nn g with
  | none => rfl
  | some v => cases v <;> rfl

theorem assocUpdate_map_fst {m : List (String × Candidate)} {k : String} {v : Candidate} :
    (assocUpdate m k v).map Prod.fst = m.map Prod.fst := by
  induction m with
  | nil => rfl
  | cons p rest ih =>
    simp only [assocUpdate, List.map_cons] at ih ⊢
    by_cases h : p.1 = k
    · simp [h, ih]
    · simp [h, ih]

theorem dedupInsert_map_fst_nodup {nn : List (String × NovVal)}
    {m : List (String × Candidate)} {c : CandVal}
    (h : (m.map Prod.fst).Nodup) : ((dedupInsert nn m c).map Prod.fst).Nodup := by
  unfold dedupInsert
  cases hr : rawNameOf c with
  | none => exact h
  | some g =>
    by_cases hg : g = ""
    · simpa [hg] using h
    · simp only [if_neg hg]
      cases hf : assocFind m (pyUpper g) with
      | some old =>
        by_cases hb : old.novel && !(mkEntry nn g).novel
        · simpa [hb, assocUpdate_map_fst] using h
        · simpa [hb] using h
      | none =>
        have hnot : (pyUpper g) ∉ m.map Prod.fst := by
          intro hmem
          rcases List.mem_map.mp hmem with ⟨p, hp, hpk⟩
          exact (assocFind_eq_none.mp hf p hp) hpk
        simp only [List.map_append, List.map_cons, List.map_nil]
        refine List.Nodup.append h (by simp) ?_
        intro a ha hb'
        simp only [List.mem_singleton] at hb'
        subst hb'
        exact hnot ha

theorem dedupInsert_keyInv {nn : List (String × NovVal)}
    {m : List (String × Candidate)} {c : CandVal}
    (h : KeyInv m) : KeyInv (dedupInsert nn m c) := by
  unfold dedupInsert
  cases hr : rawNameOf c with
  | none => exact h
  | some g =>
    by_cases hg : g = ""
    · simpa [hg] using h
    · simp only [if_neg hg]
      cases hf : assocFind m (pyUpper g) with
      | some old =>
        by_cases hb : old.novel && !(mkEntry nn g).novel
        · simp only [hb, if_true]
          intro p hp
          rcases List.mem_map.mp hp with ⟨q, hq, hpq⟩
          by_cases hqk : q.1 = (pyUpper g)
          · rw [← hpq]
            simp [hqk, mkEntry_gene]
          · rw [← hpq]
            simp only [hqk, if_false]
            exact h q hq
        · simpa [hb] using h
      | none =>
        intro p hp
        rcases List.mem_append.mp hp with hm | hm
        · exact h p hm
        · simp only [List.mem_singleton] at hm
          subst hm
          simp [mkEntry_gene]

theorem dedupInsertFold_inv (nn : List (String × NovVal)) (cs : List CandVal) :
    ∀ m, (m.map Prod.fst).Nodup → KeyInv m →
      (((cs.foldl (dedupInsert nn) m).map Prod.fst).Nodup ∧
        KeyInv (cs.foldl (dedupInsert nn) m)) := by
  induction cs with
  | nil => intro m h1 h2; exact ⟨h1, h2⟩
  | cons c cs ih =>
    intro m h1 h2
    simp only [List.foldl_cons]
    exact ih _ (dedupInsert_map_fst_nodup h1) (dedupInsert_keyInv h2)

theorem dedupPath_inv {pr : PathResult} {m : List (String × Candidate)}
    (h1 : (m.map Prod.fst).Nodup) (h2 : KeyInv m) :
    (((dedupPath m pr).map Prod.fst).Nodup ∧ KeyInv (dedupPath m pr)) := by
  cases hE : pr.error with
  | some e => simpa [dedupPath, hE] using ⟨h1, h2⟩
  | none =>
    simp only [dedupPath, hE, Option.isSome_none, Bool.false_eq_true, if_false]
    exact dedupInsertFold_inv _ _ m h1 h2

theorem dedupFold_invariants (prs : List PathResult) :
    ∀ m, (m.map Prod.fst).Nodup → KeyInv m →
      (((prs.foldl dedupPath m).map Prod.fst).Nodup ∧ KeyInv (prs.foldl dedupPath m)) := by
  induction prs with
  | nil => intro m h1 h2; exact ⟨h1, h2⟩
  | cons pr rest ih =>
    intro m h1 h2
    simp only [List.foldl_cons]
    obtain ⟨h1', h2'⟩ := @dedupPath_inv pr m h1 h2
    exact ih _ h1' h2'

theorem deDuplicate_pairwise (prs : List PathResult) :
    (deDuplicate prs).Pairwise (fun a b => (pyUpper a.gene) ≠ (pyUpper b.gene)) := by
  obtain ⟨hnd, hinv⟩ := dedupFold_invariants prs [] (by simp) (by intro p hp; cases hp)
  unfold deDuplicate
  rw [List.pairwise_map]
  have hpw : (prs.foldl dedupPath []).Pairwise (fun p q => p.1 ≠ q.1) := by
    exact List.pairwise_map.mp hnd
  refine hpw.imp_of_mem ?_
  intro p q hp hq hne
  rw [← hinv p hp, ← hinv q hq]
  exact hne

theorem length_filter_le_one_of_pairwise {l : List Candidate} {T : String}
    (h : l.Pairwise (fun a b => (pyUpper a.gene) ≠ (pyUpper b.gene))) :
    (l.filter (fun c => (pyUpper c.gene) = T)).length ≤ 1 := by
  induction l with
  | nil => simp
  | cons a l ih =>
    rw [List.pairwise_cons] at h
    by_cases ha : (pyUpper a.gene) = T
    · have hnil : l.filter (fun c => (pyUpper c.gene) = T) = [] := by
        rw [List.filter_eq_nil_iff]
        intro b hb
        simp only [decide_eq_true_eq]
        intro hbT
        exact h.1 b hb (ha.trans hbT.symm)
      simp [List.filter_cons, ha, hnil]
    · simp only [List.filter_cons, ha]
      simp only [decide_eq_true_eq, if_neg ha]
      exact ih h.2

/-- A path result contributing a single raw candidate `g` with novelty
notes `nn` (the shape produced by a successful path whose synthesis lists
one candidate). -/
def singleCandResult (pid g : String) (nn : List (String × NovVal)) : PathResult :=
  { path_id := some pid,
    synthesis := some { candidate_targets := [.s g], novelty_notes := nn } }

theorem dedup_pair_eq {idA idB gA gB : String} {nnA nnB : List (String × NovVal)}
    (hgA : gA ≠ "") (hgB : gB ≠ "") (hU : (pyUpper gA) = (pyUpper gB)) :
    deDuplicate [singleCandResult idA gA nnA, singleCandResult idB gB nnB]
      = if (mkEntry nnA gA).novel && !(mkEntry nnB gB).novel
        then [mkEntry nnB gB] else [mkEntry nnA gA] := by
  have h1 : dedupPath [] (singleCandResult idA gA nnA)
      = [((pyUpper gA), mkEntry nnA gA)] := by
    simp [dedupPath, singleCandResult, candsOf, dedupInsert, rawNameOf, assocFind, hgA]
  have h2 : dedupPath [((pyUpper gA), mkEntry nnA gA)] (singleCandResult idB gB nnB)
      = if (mkEntry nnA gA).novel && !(mkEntry nnB gB).novel
        then [((pyUpper gB), mkEntry nnB gB)] else [((pyUpper gA), mkEntry nnA gA)] := by
    simp only [dedupPath, singleCandResult, candsOf]
    simp [dedupInsert, rawNameOf, assocFind, assocUpdate, hgB, hU]
  simp only [deDuplicate, List.foldl_cons, List.foldl_nil, h1, h2]
  by_cases hb : (mkEntry nnA gA).novel && !(mkEntry nnB gB).novel
  · simp [hb]
  · simp [hb]

/-- C1: the cross-path deduplicator keeps pairwise-distinct normalized
keys; for two paths contributing candidates with the same case-normalized
key, exactly one entry for that key survives, a known (`novel = false`)
contribution beats a novel one in either arrival order, and when both
contributions agree on novelty the first-seen entry is kept. -/
theorem dedup_known_overwrites_novel :
    (∀ prs : List PathResult,
        (deDuplicate prs).Pairwise (fun a b => (pyUpper a.gene) ≠ (pyUpper b.gene))) ∧
    (∀ (idA idB gA gB : String) (nnA nnB : List (String × NovVal)),
        gA ≠ "" → gB ≠ "" → (pyUpper gA) = (pyUpper gB) →
        (deDuplicate [singleCandResult idA gA nnA, singleCandResult idB gB nnB]).length = 1 ∧
        ((mkEntry nnA gA).novel = false ∨ (mkEntry nnB gB).novel = false →
          ∀ c ∈ deDuplicate [singleCandResult idA gA nnA, singleCandResult idB gB nnB],
            c.novel = false) ∧
        ((mkEntry nnA gA).novel = (mkEntry nnB gB).novel →
          deDuplicate [singleCandResult idA gA nnA, singleCandResult idB gB nnB]
            = [mkEntry nnA gA])) := by
  refine ⟨deDuplicate_pairwise, ?_⟩
  intro idA idB gA gB nnA nnB hgA hgB hU
  rw [dedup_pair_eq hgA hgB hU]
  refine ⟨?_, ?_, ?_⟩
  · by_cases hb : ((mkEntry nnA gA).novel && !(mkEntry nnB gB).novel) = true
    · rw [if_pos hb]; rfl
    · rw [if_neg hb]; rfl
  · intro hor c hc
    by_cases hb : ((mkEntry nnA gA).novel && !(mkEntry nnB gB).novel) = true
    · rw [if_pos hb, List.mem_singleton] at hc
      subst hc
      simp only [Bool.and_eq_true, Bool.not_eq_true'] at hb
      exact hb.2
    · rw [if_neg hb, List.mem_singleton] at hc
      subst hc
      rcases hor with hA | hB
      · exact hA
      · by_cases hA : (mkEntry nnA gA).novel = true
        · exact absurd (by rw [hA, hB]; rfl) hb
        · simpa using hA
  · intro heq
    by_cases hb : ((mkEntry nnA gA).novel && !(mkEntry nnB gB).novel) = true
    · simp only [Bool.and_eq_true, Bool.not_eq_true'] at hb
      rw [hb.1, hb.2] at heq
      cases heq
    · rw [if_neg hb]

/-- C1 witness: a novel `tp53` from path 1 and a known `TP53` from path 2
merge into a single known entry. -/
theorem dedup_known_overwrites_novel_witness :
    (deDuplicate [singleCandResult "p1" "tp53" [("tp53", .note true "")],
                  singleCandResult "p2" "TP53" [("TP53", .note false "known")]]).length = 1 ∧
    ∀ c ∈ deDuplicate [singleCandResult "p1" "tp53" [("tp53", .note true "")],
                       singleCandResult "p2" "TP53" [("TP53", .note false "known")]],
      c.novel = false := by
  have h := dedup_known_overwrites_novel.2 "p1" "p2" "tp53" "TP53"
    [("tp53", .note true "")] [("TP53", .note false "known")]
    (by decide) (by decide) (by decide)
  exact ⟨h.1, h.2.1 (Or.inr (by decide))⟩

/-- C8: in a verification run with nonempty target, the post-filtered
deduplicated list has at most one entry and every surviving entry's
normalized key equals the normalized target. -/
theorem verification_filter_at_most_one :
    ∀ (prs : List PathResult) (target : String), (pyUpper target) ≠ "" →
      (verificationFilter "verification" target (deDuplicate prs)).length ≤ 1 ∧
      ∀ c ∈ verificationFilter "verification" target (deDuplicate prs),
        (pyUpper c.gene) = (pyUpper target) := by
  intro prs target ht
  have hfilter : verificationFilter "verification" target (deDuplicate prs)
      = (deDuplicate prs).filter (fun c => (pyUpper c.gene) = (pyUpper target)) := by
    simp [verificationFilter, ht]
  rw [hfilter]
  refine ⟨length_filter_le_one_of_pairwise (deDuplicate_pairwise prs), ?_⟩
  intro c hc
  have := List.of_mem_filter hc
  simpa using this

/-- C8 witness at an empty result list and target `TP53`. -/
theorem verification_filter_at_most_one_witness :
    (verificationFilter "verification" "TP53" (deDuplicate [])).length ≤ 1 ∧
    ∀ c ∈ verificationFilter "verification" "TP53" (deDuplicate []),
      (pyUpper c.gene) = (pyUpper "TP53") :=
  verification_filter_at_most_one [] "TP53" (by decide)

/-- C9 counterexample: the result the scheduler builds for a failed path
is `{"error": f"Path {id} failed: {e}"}` — it carries no `pathId` key (the
path id appears only inside the message), contrary to the claimed
`{pathId, error}` shape. -/
theorem scheduler_failure_result_lacks_path_id :
    (runSinglePath "verify_TP53" (Except.error "boom")).path_id = none ∧
    (runSinglePath "verify_TP53" (Except.error "boom")).error
      = some "Path verify_TP53 failed: boom" := by
  constructor
  · rfl
  · rfl

/-- C9 (amended): a worker failure becomes a result whose only populated
field is `error` (the message naming the failed path), and the
deduplicator ignores every result carrying an `error` field — its output
equals the output on the error-free sublist. -/
theorem error_results_excluded_from_dedup :
    (∀ (pid e : String), runSinglePath pid (Except.error e)
        = { error := some ("Path " ++ pid ++ " failed: " ++ e) }) ∧
    (∀ prs : List PathResult,
        deDuplicate prs = deDuplicate (prs.filter (fun pr => pr.error.isNone))) := by
  constructor
  · intro pid e
    rfl
  · intro prs
    unfold deDuplicate
    have h : ∀ m, prs.foldl dedupPath m
        = (prs.filter (fun pr => pr.error.isNone)).foldl dedupPath m := by
      induction prs with
      | nil => intro m; rfl
      | cons pr rest ih =>
        intro m
        cases hE : pr.error with
        | none =>
          simp only [List.foldl_cons, List.filter_cons, hE, Option.isNone_none, if_true]
          exact ih (dedupPath m pr)
        | some e =>
          have hskip : dedupPath m pr = m := by simp [dedupPath, hE]
          simp only [List.foldl_cons, List.filter_cons, hE, Option.isNone_some, hskip]
          exact ih m
    rw [h []]

/-! ## Evidence fusion & novelty classifier
(PlannerSystem._ensure_novelty_notes) -/

/-- The source kind of an evidence item, as encoded by the four extraction
branches (omics rows, OpenTargets rows, literature hits, KG relations).
The source builds formatted strings whose `"OpenTargets"`/`"Rank="`
markers appear exactly in the items built by the OpenTargets branch;
the kind tag and `rank` field model those markers. -/
inductive EvKind
  | omics | opentargets | lit | kg
deriving DecidableEq, Repr

/-- One accumulated evidence item: provenance step number, source kind,
the stored OpenTargets rank (`rank+1` of the enumeration) when the item
comes from branch (B), and the rendered provenance text. -/
structure EvItem where
  stepNum : Nat
  kind : EvKind
  rank : Option Nat := none
  text : String := ""
deriving DecidableEq, Repr

/-- Append one evidence item under a key of the evidence map
(`gene_evidence_map[key].append(ev)`, creating the key when absent). -/
def evAppend (m : List (String × List EvItem)) (k : String) (e : EvItem) :
    List (String × List EvItem) :=
  match assocFind m k with
  | some _ => m.map (fun p => if p.1 = k then (p.1, p.2 ++ [e]) else p)
  | none => m ++ [(k, [e])]

/-- The rows scanned by branch (A): both omics shapes of `results`
(discovery `top_upregulated + top_downregulated`, verification flat list). -/
def omicsRows : Option ResultsField → List ResItem
  | some (.discovery up down) => up ++ down
  | some (.vlist items) => items
  | none => []

/-- Branch (A): omics evidence for rows with a nonempty name
(`gene_id or gene`) and both `log2fc` and `padj` present. -/
def branchA (n : Nat) (r : ResultMap) : List (String × EvItem) :=
  (omicsRows r.results).filterMap (fun item =>
    match pyOrStr item.gene_id item.gene with
    | some g =>
      if g ≠ "" ∧ item.log2fc.isSome ∧ item.padj.isSome then
        some (pyUpper g,
          { stepNum := n, kind := .omics, text := "[Step " ++ toString n ++ " Omics]" })
      else none
    | none => none)

/-- Branch (B): OpenTargets evidence, one item per enumerated row with a
nonempty `symbol`; the stored rank is the enumeration index plus one
(OpenTargets results are list-shaped). -/
def branchB (n : Nat) (h : HistEntry) : List (String × EvItem) :=
  if h.step = "query_opentargets" then
    match h.result.results with
    | some (.vlist items) =>
      items.enum.filterMap (fun p =>
        match p.2.symbol with
        | some g =>
          if g ≠ "" then
            some (pyUpper g,
              { stepNum := n, kind := .opentargets, rank := some (p.1 + 1),
                text := "[Step " ++ toString n ++ " OpenTargets] Rank=" ++ toString (p.1 + 1) })
          else none
        | none => none)
    | _ => []
  else []

/-- The literature fallback's target genes: the step's `genes` argument
list-ified, plus a truthy single `gene` argument. -/
def litTargetGenes (args : ToolArgs) : List String :=
  (match args.genes with
   | some (.inl s) => [s]
   | some (.inr l) => l
   | none => []) ++
  (match args.gene with
   | some s => if s ≠ "" then [s] else []
   | none => [])

/-- Branch (C): literature evidence — per-gene `gene_details` entries with
positive count when present, otherwise the `n_results > 0` fallback over
the step's own gene arguments. -/
def branchC (n : Nat) (h : HistEntry) : List (String × EvItem) :=
  if h.step = "search_literature" ∨ h.step = "search_pubmed_mongo" then
    if h.result.gene_details.isEmpty then
      if h.result.n_results.getD 0 > 0 then
        (litTargetGenes h.args).filterMap (fun tg =>
          if tg ≠ "" then
            some (pyUpper tg,
              { stepNum := n, kind := .lit, text := "[Step " ++ toString n ++ " Lit]" })
          else none)
      else []
    else
      h.result.gene_details.filterMap (fun p =>
        if p.2.count > 0 then
          some (pyUpper p.1,
            { stepNum := n, kind := .lit,
              text := "[Step " ++ toString n ++ " Lit] " ++ p.2.summary })
        else none)
  else []

/-- Branch (D): knowledge-graph evidence for keys with a nonempty
evidence list. -/
def branchD (n : Nat) (h : HistEntry) : List (String × EvItem) :=
  if h.step = "query_kg" then
    match h.result.evidence with
    | some evs =>
      evs.filterMap (fun p =>
        if p.2.isEmpty then none
        else some (pyUpper p.1,
          { stepNum := n, kind := .kg, text := "[Step " ++ toString n ++ " KG]" }))
    | none => []
  else []

/-- The full evidence map of one path's history: for history entry `idx`
(step number `idx+1`) fold the four branches' items in order into the
map keyed by upper-cased gene name. -/
def buildEvidenceMap (history : List HistEntry) : List (String × List EvItem) :=
  history.enum.foldl (fun m p =>
    let n := p.1 + 1
    let pairs := branchA n p.2.result ++ branchB n p.2 ++ branchC n p.2 ++ branchD n p.2
    pairs.foldl (fun m q => evAppend m q.1 q.2) m) []

/-- `str(gene.get("gene") if isinstance(gene, dict) else gene)`: the name
under which a raw candidate is looked up (a dict without a `gene` key
stringifies to `"None"`). -/
def nameForEnsure : CandVal → String
  | .s v => v
  | .obj g _ =>
    match g with
    | some s => s
    | none => "None"

/-- The test `"OpenTargets" in e and "Rank=" in e and
int(e.split("Rank=")[1].split(",")[0]) <= 50` on one evidence item: the
markers identify exactly the branch-(B) items, whose parsed rank is the
stored `rank`. -/
def isOTKnownItem (e : EvItem) : Bool :=
  match e.kind, e.rank with
  | .opentargets, some r => r ≤ 50
  | _, _ => false

/-- The deterministic novelty note written for a candidate name: novel
unless some accumulated item is an OpenTargets ranking within the top 50;
the reason joins the evidence texts behind the path id. -/
def noteValue (evMap : List (String × List EvItem)) (pid : String) (k : String) : NovVal :=
  let evidences := (assocFind evMap (pyUpper k)).getD []
  .note (!(evidences.any isOTKnownItem))
    ("[" ++ pid ++ "] " ++ String.intercalate " | " (evidences.map EvItem.text))

/-- Dict write `novelty_notes[gene_name] = {...}` (replace or append). -/
def notesInsert (m : List (String × NovVal)) (k : String) (v : NovVal) :
    List (String × NovVal) :=
  match assocFind m k with
  | some _ => m.map (fun p => if p.1 = k then (p.1, v) else p)
  | none => m ++ [(k, v)]

/-- One loop iteration over the raw candidates: drop the candidate when no
evidence accumulated under its normalized name, otherwise keep it and
write its novelty note. -/
def ensureStep (evMap : List (String × List EvItem)) (pid : String)
    (acc : List CandVal × List (String × NovVal)) (gene : CandVal) :
    List CandVal × List (String × NovVal) :=
  let geneName := nameForEnsure gene
  if ((assocFind evMap (pyUpper geneName)).getD []).isEmpty then acc
  else (acc.1 ++ [gene], notesInsert acc.2 geneName (noteValue evMap pid geneName))

/-- `evidence_score`: number of `"|"`-separated segments of the
candidate's reason string (1 for a missing note). -/
def evidenceScore (notes : List (String × NovVal)) (g : CandVal) : Nat :=
  match assocFind notes (nameForEnsure g) with
  | some (.note _ r) => (r.splitOn "|").length
  | some (.flag _) => ("".splitOn "|").length
  | none => ("".splitOn "|").length

/-- `PlannerSystem._ensure_novelty_notes`: drop zero-evidence candidates,
attach novelty notes, and stably sort the survivors by descending
evidence score. -/
def ensureNoveltyNotes (synthesis : Option SynResult) (history : List HistEntry)
    (pathId : String) : Option SynResult :=
  match synthesis with
  | none => none
  | some syn =>
    if syn.candidate_targets.isEmpty then some syn
    else
      let evMap := buildEvidenceMap history
      let acc := syn.candidate_targets.foldl (ensureStep evMap pathId) ([], [])
      let sorted := acc.1.mergeSort
        (fun a b => evidenceScore acc.2 b ≤ evidenceScore acc.2 a)
      some { syn with candidate_targets := sorted, novelty_notes := acc.2 }

theorem assocFind_append {β : Type} (m l : List (String × β)) (k : String) :
    assocFind (m ++ l) k
      = match assocFind m k with
        | some v => some v
        | none => assocFind l k := by
  induction m with
  | nil => simp [assocFind]
  | cons p rest ih =>
    by_cases h : p.1 = k
    · simp [assocFind, h]
    · simp [assocFind, h, ih]

theorem assocFind_map_update_self {β : Type} {m : List (String × β)} {k : String}
    {v w : β} (h : assocFind m k = some w) :
    assocFind (m.map (fun p => if p.1 = k then (p.1, v) else p)) k = some v := by
  induction m with
  | nil => cases h
  | cons p rest ih =>
    by_cases hp : p.1 = k
    · simp [assocFind, hp]
    · simp only [assocFind, hp, if_false] at h
      simp [assocFind, hp, ih h]

theorem assocFind_map_update_other {β : Type} {m : List (String × β)} {k k' : String}
    {v : β} (hk : k' ≠ k) :
    assocFind (m.map (fun p => if p.1 = k then (p.1, v) else p)) k' = assocFind m k' := by
  induction m with
  | nil => rfl
  | cons p rest ih =>
    by_cases hp : p.1 = k
    · have hkk : k ≠ k' := fun he => hk he.symm
      simp [assocFind, hp, hkk, ih]
    · by_cases hp' : p.1 = k'
      · simp [assocFind, hp, hp', hk, ih]
      · simp [assocFind, hp, hp', ih]

theorem notesInsert_self (m : List (String × NovVal)) (k : String) (v : NovVal) :
    assocFind (notesInsert m k v) k = some v := by
  unfold notesInsert
  cases h : assocFind m k with
  | some w => exact assocFind_map_update_self h
  | none =>
    rw [assocFind_append, h]
    simp [assocFind]

theorem notesInsert_other {m : List (String × NovVal)} {k k' : String} {v : NovVal}
    (hk : k' ≠ k) :
    assocFind (notesInsert m k v) k' = assocFind m k' := by
  unfold notesInsert
  cases h : assocFind m k with
  | some w => exact assocFind_map_update_other hk
  | none =>
    rw [assocFind_append]
    cases h2 : assocFind m k' with
    | some w => rfl
    | none => simp [assocFind, Ne.symm hk]

/-- All notes written so far carry the deterministic note value of their
key. -/
def NotesGood (evMap : List (String × List EvItem)) (pid : String)
    (notes : List (String × NovVal)) : Prop :=
  ∀ k v, assocFind notes k = some v → v = noteValue evMap pid k

/-- Every kept candidate has a note under its lookup name. -/
def NotesCover (notes : List (String × NovVal)) (v : List CandVal) : Prop :=
  ∀ c ∈ v, (assocFind notes (nameForEnsure c)).isSome = true

theorem ensureFold_fst (evMap : List (String × List EvItem)) (pid : String)
    (cands : List CandVal) :
    ∀ acc, (cands.foldl (ensureStep evMap pid) acc).1
      = acc.1 ++ cands.filter
          (fun c => !((assocFind evMap (pyUpper (nameForEnsure c))).getD []).isEmpty) := by
  induction cands with
  | nil => intro acc; simp
  | cons c rest ih =>
    intro acc
    simp only [List.foldl_cons, List.filter_cons]
    by_cases he : ((assocFind evMap (pyUpper (nameForEnsure c))).getD []).isEmpty = true
    · simp [ensureStep, he, ih]
    · simp only [he, Bool.not_false, Bool.not_eq_true]
      have hstep : ensureStep evMap pid acc c
          = (acc.1 ++ [c], notesInsert acc.2 (nameForEnsure c)
              (noteValue evMap pid (nameForEnsure c))) := by
        simp [ensureStep, he]
      rw [hstep, ih]
      simp [he]

theorem ensureFold_notes (evMap : List (String × List EvItem)) (pid : String)
    (cands : List CandVal) :
    ∀ acc, NotesGood evMap pid acc.2 → NotesCover acc.2 acc.1 →
      NotesGood evMap pid (cands.foldl (ensureStep evMap pid) acc).2 ∧
      NotesCover (cands.foldl (ensureStep evMap pid) acc).2
        (cands.foldl (ensureStep evMap pid) acc).1 := by
  induction cands with
  | nil => intro acc h1 h2; exact ⟨h1, h2⟩
  | cons c rest ih =>
    intro acc h1 h2
    simp only [List.foldl_cons]
    by_cases he : ((assocFind evMap (pyUpper (nameForEnsure c))).getD []).isEmpty = true
    · have hstep : ensureStep evMap pid acc c = acc := by simp [ensureStep, he]
      rw [hstep]
      exact ih acc h1 h2
    · have hstep : ensureStep evMap pid acc c
          = (acc.1 ++ [c], notesInsert acc.2 (nameForEnsure c)
              (noteValue evMap pid (nameForEnsure c))) := by
        simp [ensureStep, he]
      rw [hstep]
      apply ih
      · intro k v hfind
        by_cases hk : k = nameForEnsure c
        · subst hk
          rw [notesInsert_self] at hfind
          exact (Option.some.inj hfind).symm
        · rw [notesInsert_other hk] at hfind
          exact h1 k v hfind
      · intro c' hc'
        simp only [List.mem_append, List.mem_singleton] at hc'
        rcases hc' with hmem | hceq
        · by_cases hk : nameForEnsure c' = nameForEnsure c
          · rw [hk, notesInsert_self]; rfl
          · rw [notesInsert_other hk]
            exact h2 c' hmem
        · subst hceq
          rw [notesInsert_self]
          rfl

theorem isOTKnownItem_iff (e : EvItem) :
    isOTKnownItem e = true ↔
      (e.kind = .opentargets ∧ ∃ rk, e.rank = some rk ∧ rk ≤ 50) := by
  unfold isOTKnownItem
  cases e.kind <;> cases hr : e.rank <;> simp [hr]

/-- C7: evidence fusion keeps a raw candidate iff at least one evidence
item accumulated under its normalized name, attaches exactly the
deterministic novelty note, and a note is known (`novel = false`) exactly
when an OpenTargets evidence item with stored rank ≤ 50 is present. -/
theorem fusion_keeps_evidenced_and_labels_top50_known :
    ∀ (syn : SynResult) (history : List HistEntry) (pid : String),
      ∃ syn', ensureNoveltyNotes (some syn) history pid = some syn' ∧
        (∀ c : CandVal, c ∈ syn'.candidate_targets ↔
            c ∈ syn.candidate_targets ∧
            ((assocFind (buildEvidenceMap history) (pyUpper (nameForEnsure c))).getD []) ≠ []) ∧
        (∀ c ∈ syn'.candidate_targets,
            assocFind syn'.novelty_notes (nameForEnsure c)
              = some (noteValue (buildEvidenceMap history) pid (nameForEnsure c))) ∧
        (∀ k : String, ∃ r : String,
            noteValue (buildEvidenceMap history) pid k
              = .note (!(((assocFind (buildEvidenceMap history) (pyUpper k)).getD []).any
                  isOTKnownItem)) r) ∧
        (∀ evs : List EvItem, evs.any isOTKnownItem = true ↔
            ∃ e ∈ evs, e.kind = .opentargets ∧ ∃ rk, e.rank = some rk ∧ rk ≤ 50) := by
  intro syn history pid
  by_cases hemp : syn.candidate_targets.isEmpty = true
  · have hnil : syn.candidate_targets = [] := by
      cases h : syn.candidate_targets
      · rfl
      · rw [h] at hemp; cases hemp
    refine ⟨syn, by simp [ensureNoveltyNotes, hemp], ?_, ?_, ?_, ?_⟩
    · intro c
      simp [hnil]
    · intro c hc
      rw [hnil] at hc
      cases hc
    · intro k
      exact ⟨_, rfl⟩
    · intro evs
      simp only [List.any_eq_true]
      constructor
      · rintro ⟨e, he, hknown⟩
        exact ⟨e, he, (isOTKnownItem_iff e).mp hknown⟩
      · rintro ⟨e, he, hprop⟩
        exact ⟨e, he, (isOTKnownItem_iff e).mpr hprop⟩
  · have hfold := ensureFold_notes (buildEvidenceMap history) pid syn.candidate_targets
      ([], []) (by intro k v h; cases h) (by intro c hc; cases hc)
    have hfst := ensureFold_fst (buildEvidenceMap history) pid syn.candidate_targets ([], [])
    have hrun : ensureNoveltyNotes (some syn) history pid
        = some { syn with
            candidate_targets := (syn.candidate_targets.foldl
                (ensureStep (buildEvidenceMap history) pid) ([], [])).1.mergeSort
              (fun a b => evidenceScore (syn.candidate_targets.foldl
                  (ensureStep (buildEvidenceMap history) pid) ([], [])).2 b
                ≤ evidenceScore (syn.candidate_targets.foldl
                  (ensureStep (buildEvidenceMap history) pid) ([], [])).2 a),
            novelty_notes := (syn.candidate_targets.foldl
                (ensureStep (buildEvidenceMap history) pid) ([], [])).2 } := by
      simp only [ensureNoveltyNotes]
      rw [if_neg hemp]
    refine ⟨_, hrun, ?_, ?_, ?_, ?_⟩
    · intro c
      simp only [List.mem_mergeSort]
      rw [hfst]
      simp only [List.nil_append, List.mem_filter, Bool.not_eq_true']
      constructor
      · rintro ⟨h1, h2⟩
        refine ⟨h1, ?_⟩
        intro hnil
        rw [hnil] at h2
        simp at h2
      · rintro ⟨h1, h2⟩
        refine ⟨h1, ?_⟩
        cases hlist : (assocFind (buildEvidenceMap history)
            (pyUpper (nameForEnsure c))).getD [] with
        | nil => exact absurd hlist h2
        | cons a l => rfl
    · intro c hc
      simp only [List.mem_mergeSort] at hc
      have hsome := hfold.2 c hc
      cases hval : assocFind
          (syn.candidate_targets.foldl
            (ensureStep (buildEvidenceMap history) pid) ([], [])).2
          (nameForEnsure c) with
      | none => rw [hval] at hsome; cases hsome
      | some v => exact congrArg some (hfold.1 (nameForEnsure c) v hval)
    · intro k
      exact ⟨_, rfl⟩
    · intro evs
      simp only [List.any_eq_true]
      constructor
      · rintro ⟨e, he, hknown⟩
        exact ⟨e, he, (isOTKnownItem_iff e).mp hknown⟩
      · rintro ⟨e, he, hprop⟩
        exact ⟨e, he, (isOTKnownItem_iff e).mpr hprop⟩

/-- C7 witness: with one OpenTargets step returning `TP53` at rank 1, a
raw candidate list `[TP53, BRCA2]` keeps `TP53` (evidence present) while
`BRCA2` carries no evidence. -/
theorem fusion_keeps_evidenced_witness :
    (CandVal.s "TP53") ∈
      ((ensureNoveltyNotes
          (some { candidate_targets := [.s "TP53", .s "BRCA2"] })
          [{ step := "query_opentargets", args := {},
             result := { type := "query_opentargets",
                         results := some (.vlist [{ symbol := some "TP53", score := some 9 }]) } }]
          "p1").getD {}).candidate_targets := by
  obtain ⟨syn', heq, hmem, -, -, -⟩ := fusion_keeps_evidenced_and_labels_top50_known
    { candidate_targets := [.s "TP53", .s "BRCA2"] }
    [{ step := "query_opentargets", args := {},
       result := { type := "query_opentargets",
                   results := some (.vlist [{ symbol := some "TP53", score := some 9 }]) } }]
    "p1"
  rw [heq]
  exact (hmem (.s "TP53")).mpr ⟨by decide, by decide⟩

/-! ## Tool executor (executor.py, ToolExecutor.execute) -/

/-- A Python value in a tool-call context dict: a string, a list of
strings, or an opaque non-string value (e.g. the task dict). -/
inductive PyVal
  | str (s : String)
  | list (xs : List String)
  | other
deriving DecidableEq, Repr

/-- A tool-call context dict (`{"task": ..., **tool_args}`), in insertion
order. -/
abbrev Ctx := List (String × PyVal)

/-- A registered tool: consumes the context and the path history
(`params["history"]`), returns a result map or raises. -/
def ToolFn : Type := Ctx → List HistEntry → Except String ResultMap

/-- Substring test (`"<decide>" in v`). -/
def strContainsSub (needle hay : String) : Bool :=
  hay.data.tails.any (fun t => needle.data.isPrefixOf t)

/-- The executor's placeholder scan: first string-valued context entry
containing the `<decide>` marker. -/
def findPlaceholder : Ctx → Option (String × String)
  | [] => none
  | (k, .str v) :: rest =>
    if strContainsSub "<decide>" v then some (k, v) else findPlaceholder rest
  | _ :: rest => findPlaceholder rest

/-- The skip result the executor returns when a placeholder parameter is
found. -/
def skippedResult (step k v : String) : ResultMap :=
  { type := step, status := some "skipped",
    reason := some ("Parameter '" ++ k ++ "' is a placeholder '" ++ v
      ++ "'. Execution skipped."),
    summary := some "Step skipped due to pending decision (<decide> placeholder)." }

/-- `ToolExecutor.execute`: unknown tools yield an error result; then the
placeholder scan may yield a skip result; otherwise the tool function runs
on the context and history (exceptions propagate — there is no
try/except around the call). -/
def executeTool (registry : String → Option ToolFn) (step : String)
    (taskContext : Ctx) (history : List HistEntry) : Except String ResultMap :=
  match registry step with
  | none => .ok { type := step, error := some ("未知工具: " ++ step) }
  | some f =>
    match findPlaceholder taskContext with
    | some (k, v) => .ok (skippedResult step k v)
    | none => f taskContext history

/-- The executor's tool table: the four advertised tools plus the
`query_mongo_local` alias of the literature tool. -/
def toolsMap (kg omics mongo ot : ToolFn) : String → Option ToolFn := fun s =>
  if s = "query_kg" then some kg
  else if s = "run_omics" then some omics
  else if s = "query_opentargets" then some ot
  else if s = "search_literature" then some mongo
  else if s = "query_mongo_local" then some mongo
  else none

/-! ## Path runner (PlannerSystem.execute_path_with_reflection) -/

/-- The decision oracle as the runner consumes it: a parsed decision per
call, a function of the current history (`step_decide`). -/
def OracleFn : Type := List HistEntry → Decision

def toolNameOf : StepItem → String
  | .name t => t
  | .call t _ _ => t

def argsOf : StepItem → ToolArgs
  | .name _ => {}
  | .call _ a _ => a

/-- `current_step_name` of `_handle_dynamic_decision` (empty when the
index is past the queue). -/
def stepNameAt (steps : List StepItem) (i : Nat) : String :=
  match steps.get? i with
  | some it => toolNameOf it
  | none => ""

/-- Python `list.insert` (clamps the index into range, appending at the
end when past it). -/
def pyInsert (l : List StepItem) (n : Nat) (a : StepItem) : List StepItem :=
  l.take n ++ a :: l.drop n

/-- The effect of `_handle_dynamic_decision`: possibly mutated steps, the
boolean return value, the decision type, and whether the oracle was
consulted (a `decide` log is emitted exactly then). -/
structure HDRes where
  steps : List StepItem
  handled : Bool
  decType : String
  checked : Bool
deriving DecidableEq, Repr

/-- `PlannerSystem._handle_dynamic_decision` given the parsed decision
`d`: pre-step decisions fire only on placeholder steps; `STOP` returns
true; `INSERT` with a truthy tool splices a `dynamic_insert` step after
the index (and pops a pre-step placeholder); `CONTINUE` pops a pre-step
placeholder; anything else falls through to false. -/
def handleDynamicDecision (d : Decision) (steps : List StepItem) (i : Nat)
    (isPre : Bool) : HDRes :=
  let nameCur := stepNameAt steps i
  let shouldCheck := if isPre then (pyStartsWith nameCur "<") else true
  if shouldCheck then
    let decType := d.decision.getD "CONTINUE"
    if decType = "STOP" then
      { steps := steps, handled := true, decType := decType, checked := true }
    else if decType = "INSERT" then
      match d.tool with
      | some tool =>
        if tool ≠ "" then
          let steps1 := pyInsert steps (i + 1) (.call tool d.args (some "dynamic_insert"))
          let steps2 := if isPre ∧ (pyStartsWith nameCur "<") then steps1.eraseIdx i else steps1
          { steps := steps2, handled := true, decType := decType, checked := true }
        else { steps := steps, handled := false, decType := decType, checked := true }
      | none => { steps := steps, handled := false, decType := decType, checked := true }
    else if decType = "CONTINUE" then
      if isPre ∧ (pyStartsWith nameCur "<") then
        { steps := steps.eraseIdx i, handled := true, decType := decType, checked := true }
      else { steps := steps, handled := false, decType := decType, checked := true }
    else { steps := steps, handled := false, decType := decType, checked := true }
  else { steps := steps, handled := false, decType := "", checked := false }

/-- The truthy `tool_args.get("genes") or tool_args.get("gene")` value. -/
inductive GeneArg
  | strv (s : String)
  | listv (l : List String)
deriving DecidableEq, Repr

def existingOf (args : ToolArgs) : Option GeneArg :=
  let fromGene : Option GeneArg :=
    match args.gene with
    | some s => if s ≠ "" then some (.strv s) else none
    | none => none
  match args.genes with
  | some (.inl s) => if s ≠ "" then some (.strv s) else fromGene
  | some (.inr l) => if l ≠ [] then some (.listv l) else fromGene
  | none => fromGene

/-- `not existing or existing in ["<decide>", "TP53"]`. -/
def injectNeeded (args : ToolArgs) : Bool :=
  match existingOf args with
  | none => true
  | some (.strv s) => s = "<decide>" ∨ s = "TP53"
  | some (.listv _) => false

/-- `PlannerSystem._inject_context_genes`: for entity-consuming tools with
a nonempty bus and absent/placeholder/default args, set `genes` to the bus
and delete `gene`. -/
def injectContextGenes (toolName : String) (args : ToolArgs) (bus : List String) :
    ToolArgs :=
  if (toolName = "search_literature" ∨ toolName = "query_opentargets"
      ∨ toolName = "query_kg" ∨ toolName = "run_omics") ∧ bus ≠ [] then
    if injectNeeded args then { genes := some (.inr bus), gene := none }
    else args
  else args

/-- `g.get("gene_id", g.get("gene"))`. -/
def getOrGene (it : ResItem) : Option String :=
  match it.gene_id with
  | some v => some v
  | none => it.gene

/-- `extract_genes_from_result`: tool-specific gene extraction feeding the
context bus (`list(set(...))` modelled as order-preserving dedup, with
falsy names dropped). -/
def extractGenesFromResult (toolName : String) (result : ResultMap) : List String :=
  let found : List (Option String) :=
    if toolName = "run_omics" then
      match result.results with
      | some (.discovery up down) => ((up.take 10) ++ (down.take 10)).map getOrGene
      | some (.vlist items) =>
        (items.filter (fun it => it.is_significant)).map (fun it => it.gene)
      | none => []
    else if toolName = "query_kg" then
      match result.results with
      | some (.vlist items) => items.map (fun it => pyOrStr it.name it.symbol)
      | _ => []
    else if toolName = "query_opentargets" then
      match result.results with
      | some (.vlist items) => (items.take 10).map (fun it => it.symbol)
      | _ => []
    else []
  ((found.filterMap id).filter (fun g => g ≠ "")).dedup

/-- The context dict built for a tool call: `{"task": task, **tool_args}`
(the task value is opaque to the placeholder scan since it is not a
string). -/
def ctxOfArgs (args : ToolArgs) : Ctx :=
  ("task", PyVal.other) ::
  ((match args.genes with
    | some (.inl s) => [("genes", PyVal.str s)]
    | some (.inr l) => [("genes", PyVal.list l)]
    | none => []) ++
   (match args.gene with
    | some s => [("gene", PyVal.str s)]
    | none => []))

/-- Typed events of the run log (payloads restricted to what the claims
inspect). -/
inductive LogEvent
  | executing (step : String)
  | stepDone (step : String)
  | decide (d : Decision)
  | skip (step : String) (reason : String)
deriving DecidableEq, Repr

/-- The mutable state of one path's execution loop. -/
structure RState where
  steps : List StepItem
  i : Nat
  history : List HistEntry
  bus : List String
  searched : List String
deriving DecidableEq, Repr

/-- Outcome of one iteration of the `while` body: loop again, break out,
or propagate an exception. -/
inductive BodyOut
  | next (s : RState)
  | brk (s : RState)
  | raised (e : String)
deriving DecidableEq, Repr

/-- Steps 3–6 of the loop body: execute the tool, capture the bus (except
in verification paths), append the history entry, and run the post-step
decision. -/
def execStep (registry : String → Option ToolFn) (oracle : OracleFn) (pathId : String)
    (s : RState) (toolName : String) (args : ToolArgs) (searchedNew : List String)
    (logs0 : List LogEvent) : BodyOut × List LogEvent :=
  let logs1 := logs0 ++ [LogEvent.executing toolName]
  match executeTool registry toolName (ctxOfArgs args) s.history with
  | .error e => (.raised e, logs1)
  | .ok out =>
    let busNew :=
      if (pyStartsWith pathId "verify_") then s.bus
      else
        let ng := extractGenesFromResult toolName out
        if ng.isEmpty then s.bus else ng
    let histNew := s.history ++ [{ step := toolName, args := args, result := out }]
    let logs2 := logs1 ++ [LogEvent.stepDone toolName]
    let dPost := oracle histNew
    let post := handleDynamicDecision dPost s.steps s.i false
    let logs3 := logs2 ++ (if post.checked then [LogEvent.decide dPost] else [])
    if post.handled ∧ post.decType = "STOP" then
      (.brk { steps := post.steps, i := s.i, history := histNew,
              bus := busNew, searched := searchedNew }, logs3)
    else
      (.next { steps := post.steps, i := s.i + 1, history := histNew,
               bus := busNew, searched := searchedNew }, logs3)

/-- `target_genes = tool_args.get("genes", [])`, list-ified when it is a
single string. -/
def genesAsList (args : ToolArgs) : List String :=
  match args.genes with
  | some (.inl g) => [g]
  | some (.inr l) => l
  | none => []

/-- The uncovered subset of a literature step's gene arguments
(`[g for g in target_genes if g not in searched_genes_history]`). -/
def litNewGenes (searched : List String) (args : ToolArgs) : List String :=
  (genesAsList args).filter (fun g => !(searched.contains g))

/-- The concrete-step part of the loop body: bounds re-check, placeholder
index skip, context-bus injection, and the literature duplicate-request
guard, then `execStep`. -/
def loopExec (registry : String → Option ToolFn) (oracle : OracleFn) (pathId : String)
    (s : RState) (logs0 : List LogEvent) : BodyOut × List LogEvent :=
  if s.i ≥ s.steps.length then (.brk s, logs0)
  else
    let item := s.steps.getD s.i (.name "")
    let toolName := toolNameOf item
    if toolName = "" ∨ (pyStartsWith toolName "<") then
      (.next { s with i := s.i + 1 }, logs0)
    else
      let args1 := injectContextGenes toolName (argsOf item) s.bus
      if toolName = "search_literature" then
        let newGenes := litNewGenes s.searched args1
        if newGenes.isEmpty then
          (.next { s with i := s.i + 1 }, logs0 ++ [.skip toolName "duplicate_genes"])
        else
          execStep registry oracle pathId s toolName
            { args1 with genes := some (.inr newGenes) } (s.searched ++ newGenes) logs0
      else execStep registry oracle pathId s toolName args1 s.searched logs0

/-- One full iteration of the `while` body: pre-step decision handling,
then the concrete-step part. -/
def loopBody (registry : String → Option ToolFn) (oracle : OracleFn) (pathId : String)
    (s : RState) : BodyOut × List LogEvent :=
  let dPre := oracle s.history
  let pre := handleDynamicDecision dPre s.steps s.i true
  let preLogs := if pre.checked then [LogEvent.decide dPre] else []
  if pre.handled then
    if pre.decType = "STOP" then (.brk { s with steps := pre.steps }, preLogs)
    else if s.i ≥ pre.steps.length then (.brk { s with steps := pre.steps }, preLogs)
    else if (pyStartsWith (stepNameAt pre.steps s.i) "<") then
      (.next { s with steps := pre.steps }, preLogs)
    else loopExec registry oracle pathId { s with steps := pre.steps } preLogs
  else loopExec registry oracle pathId { s with steps := pre.steps } preLogs

/-- The `while i < len(steps) and i < 50` loop, with explicit fuel: `none`
means the fuel ran out before the loop finished (the source loop has no
such bound — an infinite loop is `none` for every fuel). -/
def runLoop (registry : String → Option ToolFn) (oracle : OracleFn) (pathId : String) :
    Nat → RState → Option (Except String RState)
  | 0, _ => none
  | n + 1, s =>
    if s.i < s.steps.length ∧ s.i < 50 then
      match (loopBody registry oracle pathId s).1 with
      | .next s' => runLoop registry oracle pathId n s'
      | .brk s' => some (.ok s')
      | .raised e => some (.error e)
    else some (.ok s)

/-- A planner-produced path spec. -/
structure PathSpec where
  path_id : String
  steps : List StepItem
deriving Repr

def initState (spec : PathSpec) : RState :=
  { steps := spec.steps, i := 0, history := [], bus := [], searched := [] }

/-- `execute_path_with_reflection`: run the loop from the initial state,
then synthesize (external call `synth`), attach novelty notes, and return
the result dict; an exception escaping the loop escapes the function. -/
def executePathWithReflection (registry : String → Option ToolFn) (oracle : OracleFn)
    (synth : List HistEntry → Option SynResult) (spec : PathSpec) (fuel : Nat) :
    Option (Except String SuccessResult) :=
  match runLoop registry oracle spec.path_id fuel (initState spec) with
  | none => none
  | some (.error e) => some (.error e)
  | some (.ok s) =>
    some (.ok { path_id := spec.path_id, history := s.history,
                synthesis := ensureNoveltyNotes (synth s.history) s.history spec.path_id,
                steps := s.steps })

/-- The parsed decision for an unparseable / field-less oracle response. -/
def emptyDecision : Decision := {}

/-- An explicit `{"decision": "CONTINUE"}` response. -/
def continueDecision : Decision := { decision := some "CONTINUE" }

/-- An oracle answering CONTINUE on every call. -/
def continueOracle : OracleFn := fun _ => continueDecision

/-- A tool function that ignores its input and succeeds with an empty
result. -/
def benignTool : ToolFn := fun _ _ => .ok {}

/-- C10 counterexample: the unknown-tool check precedes the placeholder
scan, so a request for an unregistered tool name with a `<decide>`
placeholder argument yields the unknown-tool error result, not the
claimed `status = "skipped"` result. -/
theorem executor_unknown_tool_beats_placeholder :
    executeTool (toolsMap benignTool benignTool benignTool benignTool)
        "made_up_tool" [("genes", PyVal.str "<decide>")] []
      = .ok { type := "made_up_tool", error := some "未知工具: made_up_tool" } ∧
    findPlaceholder [("genes", PyVal.str "<decide>")] = some ("genes", "<decide>") ∧
    ({ type := "made_up_tool", error := some "未知工具: made_up_tool" } : ResultMap).status
      ≠ some "skipped" := by
  refine ⟨rfl, by decide, by decide⟩

/-- C10 (amended): for a step that names a registered tool, a `<decide>`
placeholder in any string-valued context entry makes the executor return
the skip result (type = step, reason naming the placeholder parameter)
without invoking the tool — the outcome is the same for every tool
function registered under that name. -/
theorem executor_placeholder_skips_registered_tool :
    ∀ (registry : String → Option ToolFn) (step : String) (ctx : Ctx)
      (history : List HistEntry) (f : ToolFn) (k v : String),
      registry step = some f → findPlaceholder ctx = some (k, v) →
      executeTool registry step ctx history = .ok (skippedResult step k v) := by
  intro registry step ctx history f k v hreg hfind
  unfold executeTool
  rw [hreg, hfind]

/-- C10 witness: `query_kg` with a placeholder `genes` argument is
skipped. -/
theorem executor_placeholder_skips_registered_tool_witness :
    executeTool (toolsMap benignTool benignTool benignTool benignTool)
        "query_kg" [("genes", PyVal.str "<decide>")] []
      = .ok (skippedResult "query_kg" "genes" "<decide>") :=
  executor_placeholder_skips_registered_tool _ _ _ _ benignTool _ _ rfl (by decide)

theorem hde_empty_eq_continue (steps : List StepItem) (i : Nat) (isPre : Bool) :
    handleDynamicDecision emptyDecision steps i isPre
      = handleDynamicDecision continueDecision steps i isPre := rfl

theorem execStep_fst_oracle_congr (registry : String → Option ToolFn)
    (o₁ o₂ : OracleFn) (pid toolName : String) (args : ToolArgs)
    (searchedNew : List String) (s : RState) (l₁ l₂ : List LogEvent)
    (h : ∀ hist, handleDynamicDecision (o₁ hist) s.steps s.i false
        = handleDynamicDecision (o₂ hist) s.steps s.i false) :
    (execStep registry o₁ pid s toolName args searchedNew l₁).1
      = (execStep registry o₂ pid s toolName args searchedNew l₂).1 := by
  cases hE : executeTool registry toolName (ctxOfArgs args) s.history with
  | error e => simp [execStep, hE]
  | ok out =>
    simp only [execStep, hE]
    rw [h (s.history ++ [({ step := toolName, args := args, result := out } : HistEntry)])]
    by_cases hc : (handleDynamicDecision
        (o₂ (s.history ++ [({ step := toolName, args := args, result := out } : HistEntry)]))
        s.steps s.i false).handled = true
      ∧ (handleDynamicDecision
        (o₂ (s.history ++ [({ step := toolName, args := args, result := out } : HistEntry)]))
        s.steps s.i false).decType = "STOP"
    · rw [if_pos hc, if_pos hc]
    · rw [if_neg hc, if_neg hc]

theorem loopExec_fst_oracle_congr (registry : String → Option ToolFn)
    (o₁ o₂ : OracleFn) (pid : String) (s : RState) (l₁ l₂ : List LogEvent)
    (h : ∀ hist, handleDynamicDecision (o₁ hist) s.steps s.i false
        = handleDynamicDecision (o₂ hist) s.steps s.i false) :
    (loopExec registry o₁ pid s l₁).1 = (loopExec registry o₂ pid s l₂).1 := by
  simp only [loopExec]
  by_cases hlen : s.i ≥ s.steps.length
  · simp only [if_pos hlen]
  · simp only [if_neg hlen]
    by_cases hname : (toolNameOf (s.steps.getD s.i (.name ""))) = ""
      ∨ pyStartsWith (toolNameOf (s.steps.getD s.i (.name ""))) "<" = true
    · simp only [if_pos hname]
    · simp only [if_neg hname]
      by_cases hlit : toolNameOf (s.steps.getD s.i (.name "")) = "search_literature"
      · simp only [if_pos hlit]
        by_cases hemp : (litNewGenes s.searched (injectContextGenes
            (toolNameOf (s.steps.getD s.i (.name "")))
            (argsOf (s.steps.getD s.i (.name ""))) s.bus)).isEmpty = true
        · simp only [if_pos hemp]
        · simp only [if_neg hemp]
          exact execStep_fst_oracle_congr registry o₁ o₂ pid _ _ _ s _ _ h
      · simp only [if_neg hlit]
        exact execStep_fst_oracle_congr registry o₁ o₂ pid _ _ _ s _ _ h

theorem loopBody_fst_oracle_congr (registry : String → Option ToolFn)
    (o₁ o₂ : OracleFn) (pid : String)
    (h : ∀ (hist : List HistEntry) (steps : List StepItem) (i : Nat) (isPre : Bool),
        handleDynamicDecision (o₁ hist) steps i isPre
          = handleDynamicDecision (o₂ hist) steps i isPre) :
    ∀ s : RState, (loopBody registry o₁ pid s).1 = (loopBody registry o₂ pid s).1 := by
  intro s
  simp only [loopBody]
  rw [h s.history s.steps s.i true]
  by_cases hh : (handleDynamicDecision (o₂ s.history) s.steps s.i true).handled = true
  · simp only [if_pos hh]
    by_cases hstop : (handleDynamicDecision (o₂ s.history) s.steps s.i true).decType = "STOP"
    · simp only [if_pos hstop]
    · simp only [if_neg hstop]
      by_cases hlen : s.i ≥ (handleDynamicDecision (o₂ s.history) s.steps s.i true).steps.length
      · simp only [if_pos hlen]
      · simp only [if_neg hlen]
        by_cases hph : pyStartsWith (stepNameAt
            (handleDynamicDecision (o₂ s.history) s.steps s.i true).steps s.i) "<" = true
        · simp only [if_pos hph]
        · simp only [if_neg hph]
          exact loopExec_fst_oracle_congr registry o₁ o₂ pid _ _ _
            (fun hist => h hist _ _ false)
  · simp only [if_neg hh]
    exact loopExec_fst_oracle_congr registry o₁ o₂ pid _ _ _
      (fun hist => h hist _ _ false)

/-- C4: an unparseable oracle response or one lacking the `decision` field
(parsed as the empty dict) is handled exactly like an explicit
`{"decision": "CONTINUE"}`: the decision handler behaves identically on
every input, a post-step handler call leaves the queue unchanged and
returns false (no stop, no insert, the loop then advances the index), and
one whole loop-body iteration produces the same outcome under either
oracle. -/
theorem unparseable_decision_acts_as_continue :
    (∀ (steps : List StepItem) (i : Nat) (isPre : Bool),
        handleDynamicDecision emptyDecision steps i isPre
          = handleDynamicDecision continueDecision steps i isPre) ∧
    (∀ (steps : List StepItem) (i : Nat),
        handleDynamicDecision emptyDecision steps i false
          = { steps := steps, handled := false, decType := "CONTINUE", checked := true }) ∧
    (∀ (registry : String → Option ToolFn) (pid : String) (s : RState),
        (loopBody registry (fun _ => emptyDecision) pid s).1
          = (loopBody registry continueOracle pid s).1) := by
  refine ⟨fun steps i isPre => hde_empty_eq_continue steps i isPre, ?_, ?_⟩
  · intro steps i
    rfl
  · intro registry pid s
    exact loopBody_fst_oracle_congr registry _ _ pid
      (fun hist steps i isPre => hde_empty_eq_continue steps i isPre) s

/-- The oracle that answers `{"decision": "INSERT", "tool": "<decide>"}`
on every call. -/
def insertPlaceholderOracle : OracleFn := fun _ =>
  { decision := some "INSERT", tool := some "<decide>" }

theorem loopBody_insert_placeholder_fixed (registry : String → Option ToolFn)
    (hist : List HistEntry) (bus searched : List String) (rsn : Option String) :
    (loopBody registry insertPlaceholderOracle "discovery_pipeline"
      { steps := [.call "<decide>" {} rsn], i := 0, history := hist,
        bus := bus, searched := searched }).1
    = .next { steps := [.call "<decide>" {} (some "dynamic_insert")], i := 0,
              history := hist, bus := bus, searched := searched } := rfl

/-- C3 (code bug): against an oracle that always answers INSERT with a
placeholder tool name, the `while i < len(steps) and i < 50` loop never
terminates — the pre-step INSERT handling replaces the placeholder at the
current index by an identical placeholder, so the loop body maps the
state to itself and the runner returns for no amount of fuel, despite the
guard whose comment promises to prevent infinite loops. -/
theorem insert_placeholder_oracle_never_terminates :
    ∀ (registry : String → Option ToolFn) (fuel : Nat),
      runLoop registry insertPlaceholderOracle "discovery_pipeline" fuel
        { steps := [.call "<decide>" {} none], i := 0, history := [], bus := [],
          searched := [] } = none := by
  intro registry fuel
  have haux : ∀ (n : Nat) (rsn : Option String),
      runLoop registry insertPlaceholderOracle "discovery_pipeline" n
        { steps := [.call "<decide>" {} rsn], i := 0, history := [], bus := [],
          searched := [] } = none := by
    intro n
    induction n with
    | zero => intro rsn; rfl
    | succ n ih =>
      intro rsn
      simp only [runLoop, loopBody_insert_placeholder_fixed registry [] [] [] rsn]
      simpa using ih (some "dynamic_insert")
  exact haux fuel none

/-- A knowledge-graph tool that raises. -/
def raisingTool : ToolFn := fun _ _ => .error "boom"

/-- A one-step path invoking the raising tool. -/
def kgFailSpec : PathSpec :=
  { path_id := "p1", steps := [.call "query_kg" { genes := some (.inr ["TP53"]) } none] }

/-- C2 counterexample: a tool exception is not converted by the executor —
`execute` returns the exception, the whole path run fails with it, and the
scheduler's failure result carries no history at all (so nothing was
recorded and no further step ran), contrary to the claimed
catch-and-continue behavior. -/
theorem tool_exception_crosses_executor :
    executeTool (toolsMap raisingTool benignTool benignTool benignTool) "query_kg"
        (ctxOfArgs { genes := some (.inr ["TP53"]) }) [] = .error "boom" ∧
    executePathWithReflection (toolsMap raisingTool benignTool benignTool benignTool)
        continueOracle (fun _ => none) kgFailSpec 50 = some (.error "boom") ∧
    (runSinglePath "p1" (Except.error "boom")).history = none ∧
    (runSinglePath "p1" (Except.error "boom")).error = some "Path p1 failed: boom" := by
  refine ⟨rfl, rfl, rfl, rfl⟩

theorem hde_post_decType (d : Decision) (steps : List StepItem) (i : Nat) :
    (handleDynamicDecision d steps i false).decType = d.decision.getD "CONTINUE" := by
  unfold handleDynamicDecision
  by_cases h1 : d.decision.getD "CONTINUE" = "STOP"
  · simp [h1]
  · by_cases h2 : d.decision.getD "CONTINUE" = "INSERT"
    · cases h3 : d.tool with
      | none => simp [h1, h2, h3]
      | some t =>
        by_cases h4 : t = ""
        · simp [h1, h2, h3, h4]
        · simp [h1, h2, h3, h4]
    · by_cases h5 : d.decision.getD "CONTINUE" = "CONTINUE"
      · simp [h1, h2, h5]
      · simp [h1, h2, h5]

theorem loopBody_concrete_step (registry : String → Option ToolFn) (oracle : OracleFn)
    (pid : String) (s : RState) (toolName : String) (args : ToolArgs) (rsn : Option String)
    (hget : s.steps.get? s.i = some (.call toolName args rsn))
    (hne : toolName ≠ "") (hlt : (pyStartsWith toolName "<") = false)
    (hnlit : toolName ≠ "search_literature") :
    loopBody registry oracle pid s
      = execStep registry oracle pid s toolName
          (injectContextGenes toolName args s.bus) s.searched [] := by
  have hget' : s.steps[s.i]? = some (StepItem.call toolName args rsn) := by
    rw [← List.get?_eq_getElem?]
    exact hget
  have hname : stepNameAt s.steps s.i = toolName := by
    simp [stepNameAt, hget', toolNameOf]
  have hpre : handleDynamicDecision (oracle s.history) s.steps s.i true
      = { steps := s.steps, handled := false, decType := "", checked := false } := by
    simp [handleDynamicDecision, hname, hlt]
  have hlen : ¬ (s.i ≥ s.steps.length) := by
    intro hge
    rw [List.get?_eq_none.mpr hge] at hget
    cases hget
  have hitem : s.steps.getD s.i (.name "") = .call toolName args rsn := by
    simp [List.getD, hget']
  have hcond : ¬ (toolNameOf (StepItem.call toolName args rsn) = ""
      ∨ pyStartsWith (toolNameOf (StepItem.call toolName args rsn)) "<" = true) := by
    simp [toolNameOf, hne, hlt]
  simp only [loopBody, hpre]
  simp only [loopExec, if_neg hlen, hitem, if_neg hcond]
  simp only [toolNameOf, argsOf, if_neg hnlit]
  simp

/-- C2 (amended): a tool that reports failure through an `error` field of
a successfully returned result map has that result appended to the path's
history like any other result, and the path proceeds to the post-step
decision and the next index; a tool that raises is not caught by the
executor — the exception escapes the loop body as the path's failure. -/
theorem error_field_recorded_exception_propagates :
    (∀ (registry : String → Option ToolFn) (oracle : OracleFn) (pid toolName : String)
        (args : ToolArgs) (rsn : Option String) (s : RState) (r : ResultMap),
      s.steps.get? s.i = some (.call toolName args rsn) →
      toolName ≠ "" → (pyStartsWith toolName "<") = false → toolName ≠ "search_literature" →
      executeTool registry toolName
          (ctxOfArgs (injectContextGenes toolName args s.bus)) s.history = .ok r →
      (oracle (s.history ++ [({ step := toolName,
                                args := injectContextGenes toolName args s.bus,
                                result := r } : HistEntry)])).decision.getD "CONTINUE"
        ≠ "STOP" →
      (loopBody registry oracle pid s).1
        = .next { steps := (handleDynamicDecision
                              (oracle (s.history ++ [({ step := toolName,
                                                        args := injectContextGenes toolName
                                                          args s.bus,
                                                        result := r } : HistEntry)]))
                              s.steps s.i false).steps,
                  i := s.i + 1,
                  history := s.history ++ [({ step := toolName,
                                              args := injectContextGenes toolName args s.bus,
                                              result := r } : HistEntry)],
                  bus := if (pyStartsWith pid "verify_") = true then s.bus
                    else if (extractGenesFromResult toolName r).isEmpty = true then s.bus
                    else extractGenesFromResult toolName r,
                  searched := s.searched }) ∧
    (∀ (registry : String → Option ToolFn) (oracle : OracleFn) (pid toolName : String)
        (args : ToolArgs) (rsn : Option String) (s : RState) (e : String),
      s.steps.get? s.i = some (.call toolName args rsn) →
      toolName ≠ "" → (pyStartsWith toolName "<") = false → toolName ≠ "search_literature" →
      executeTool registry toolName
          (ctxOfArgs (injectContextGenes toolName args s.bus)) s.history = .error e →
      (loopBody registry oracle pid s).1 = .raised e) := by
  constructor
  · intro registry oracle pid toolName args rsn s r hget hne hlt hnlit hexec hdec
    rw [loopBody_concrete_step registry oracle pid s toolName args rsn hget hne hlt hnlit]
    have hcfalse : ¬ ((handleDynamicDecision
        (oracle (s.history ++ [({ step := toolName,
                                  args := injectContextGenes toolName args s.bus,
                                  result := r } : HistEntry)])) s.steps s.i false).handled = true
      ∧ (handleDynamicDecision
        (oracle (s.history ++ [({ step := toolName,
                                  args := injectContextGenes toolName args s.bus,
                                  result := r } : HistEntry)])) s.steps s.i false).decType
          = "STOP") := by
      rintro ⟨-, h2⟩
      rw [hde_post_decType] at h2
      exact hdec h2
    simp only [execStep, hexec, if_neg hcfalse]
  · intro registry oracle pid toolName args rsn s e hget hne hlt hnlit hexec
    rw [loopBody_concrete_step registry oracle pid s toolName args rsn hget hne hlt hnlit]
    simp only [execStep, hexec]

/-- A tool returning a result that carries an `error` field. -/
def errFieldTool : ToolFn := fun _ _ =>
  .ok { type := "query_kg", error := some "Neo4j connection failed" }

/-- C2 witness: the error-carrying result of `query_kg` is appended to the
history and the loop advances to index 1. -/
theorem error_field_recorded_witness :
    (loopBody (toolsMap errFieldTool benignTool benignTool benignTool) continueOracle "p1"
        (initState { path_id := "p1", steps := [.call "query_kg" {} none] })).1
      = .next { steps := [.call "query_kg" {} none], i := 1,
                history := [{ step := "query_kg", args := {},
                              result := { type := "query_kg",
                                          error := some "Neo4j connection failed" } }],
                bus := [], searched := [] } := by
  have h := error_field_recorded_exception_propagates.1
    (toolsMap errFieldTool benignTool benignTool benignTool) continueOracle "p1" "query_kg"
    {} none (initState { path_id := "p1", steps := [.call "query_kg" {} none] })
    { type := "query_kg", error := some "Neo4j connection failed" }
    rfl (by decide) (by decide) (by decide) rfl (by decide)
  exact h

theorem loopBody_lit_step (registry : String → Option ToolFn) (oracle : OracleFn)
    (pid : String) (s : RState) (args : ToolArgs) (rsn : Option String)
    (hget : s.steps.get? s.i = some (.call "search_literature" args rsn)) :
    loopBody registry oracle pid s
      = (let args1 := injectContextGenes "search_literature" args s.bus
         let newGenes := litNewGenes s.searched args1
         if newGenes.isEmpty then
           (.next { s with i := s.i + 1 },
            [LogEvent.skip "search_literature" "duplicate_genes"])
         else
           execStep registry oracle pid s "search_literature"
             { args1 with genes := some (.inr newGenes) } (s.searched ++ newGenes) []) := by
  have hget' : s.steps[s.i]? = some (StepItem.call "search_literature" args rsn) := by
    rw [← List.get?_eq_getElem?]
    exact hget
  have hname : stepNameAt s.steps s.i = "search_literature" := by
    simp [stepNameAt, hget', toolNameOf]
  have hpre : handleDynamicDecision (oracle s.history) s.steps s.i true
      = { steps := s.steps, handled := false, decType := "", checked := false } := by
    simp [handleDynamicDecision, hname,
      show pyStartsWith "search_literature" "<" = false from rfl]
  have hlen : ¬ (s.i ≥ s.steps.length) := by
    intro hge
    rw [List.get?_eq_none.mpr hge] at hget
    cases hget
  have hitem : s.steps.getD s.i (.name "") = .call "search_literature" args rsn := by
    simp [List.getD, hget']
  have hcond : ¬ (toolNameOf (StepItem.call "search_literature" args rsn) = ""
      ∨ pyStartsWith (toolNameOf (StepItem.call "search_literature" args rsn)) "<" = true) := by
    simp [toolNameOf, show pyStartsWith "search_literature" "<" = false from rfl]
  simp only [loopBody, hpre]
  simp only [loopExec, if_neg hlen, hitem, if_neg hcond]
  simp only [toolNameOf, argsOf, if_pos rfl]
  simp

/-- C5: within one path, a literature step whose (injected) gene arguments
are all already in the per-path searched set is recorded as a
`skip`/`duplicate_genes` log event without executing the tool or touching
history, and a pair of successive literature steps with arguments `[A, B]`
then `[B, C]` invokes the literature tool with exactly `[A, B]` and then
`[C]`, the searched set ending as `[A, B, C]`. -/
theorem literature_duplicate_guard :
    (∀ (registry : String → Option ToolFn) (oracle : OracleFn) (pid : String)
        (s : RState) (args : ToolArgs) (rsn : Option String),
      s.steps.get? s.i = some (.call "search_literature" args rsn) →
      litNewGenes s.searched (injectContextGenes "search_literature" args s.bus) = [] →
      loopBody registry oracle pid s
        = (.next { s with i := s.i + 1 },
           [LogEvent.skip "search_literature" "duplicate_genes"])) ∧
    (∀ (A B C : String) (r : ResultMap) (kg om ot : ToolFn),
      C ≠ A → C ≠ B →
      runLoop (toolsMap kg om (fun _ _ => .ok r) ot) continueOracle "p" 3
          (initState
            { path_id := "p",
              steps := [.call "search_literature" { genes := some (.inr [A, B]) } none,
                        .call "search_literature" { genes := some (.inr [B, C]) } none] })
        = some (.ok
            { steps := [.call "search_literature" { genes := some (.inr [A, B]) } none,
                        .call "search_literature" { genes := some (.inr [B, C]) } none],
              i := 2,
              history := [{ step := "search_literature",
                            args := { genes := some (.inr [A, B]) }, result := r },
                          { step := "search_literature",
                            args := { genes := some (.inr [C]) }, result := r }],
              bus := [], searched := [A, B, C] })) := by
  constructor
  · intro registry oracle pid s args rsn hget hcov
    rw [loopBody_lit_step registry oracle pid s args rsn hget]
    simp [hcov]
  · intro A B C r kg om ot hCA hCB
    have hmemB : List.elem B [A, B] = true := by
      cases hBA : B == A <;> simp [List.elem, hBA]
    have hmemC : List.elem C [A, B] = false := by
      simp [List.elem, beq_eq_false_iff_ne.mpr hCA, beq_eq_false_iff_ne.mpr hCB]
    have hnew : litNewGenes [A, B]
        (injectContextGenes "search_literature"
          { genes := some (.inr [B, C]) } []) = [C] := by
      simp [injectContextGenes, litNewGenes, genesAsList, List.contains, List.filter,
        hmemB, hmemC, hCA, hCB]
    have hstep : ∀ (n : Nat) (s s' : RState),
        (loopBody (toolsMap kg om (fun _ _ => .ok r) ot) continueOracle "p" s).1 = .next s' →
        s.i < s.steps.length ∧ s.i < 50 →
        runLoop (toolsMap kg om (fun _ _ => .ok r) ot) continueOracle "p" (n + 1) s
          = runLoop (toolsMap kg om (fun _ _ => .ok r) ot) continueOracle "p" n s' := by
      intro n s s' hb hguard
      simp only [runLoop, if_pos hguard, hb]
    have hb1 : (loopBody (toolsMap kg om (fun _ _ => .ok r) ot) continueOracle "p"
        (initState
          { path_id := "p",
            steps := [.call "search_literature" { genes := some (.inr [A, B]) } none,
                      .call "search_literature" { genes := some (.inr [B, C]) } none] })).1
        = .next { steps := [.call "search_literature" { genes := some (.inr [A, B]) } none,
                            .call "search_literature" { genes := some (.inr [B, C]) } none],
                  i := 1,
                  history := [{ step := "search_literature",
                                args := { genes := some (.inr [A, B]) }, result := r }],
                  bus := [], searched := [A, B] } := rfl
    have hb2 : (loopBody (toolsMap kg om (fun _ _ => .ok r) ot) continueOracle "p"
        { steps := [.call "search_literature" { genes := some (.inr [A, B]) } none,
                    .call "search_literature" { genes := some (.inr [B, C]) } none],
          i := 1,
          history := [{ step := "search_literature",
                        args := { genes := some (.inr [A, B]) }, result := r }],
          bus := [], searched := [A, B] }).1
        = .next { steps := [.call "search_literature" { genes := some (.inr [A, B]) } none,
                            .call "search_literature" { genes := some (.inr [B, C]) } none],
                  i := 2,
                  history := [{ step := "search_literature",
                                args := { genes := some (.inr [A, B]) }, result := r },
                              { step := "search_literature",
                                args := { genes := some (.inr [C]) }, result := r }],
                  bus := [], searched := [A, B, C] } := by
      rw [loopBody_lit_step (toolsMap kg om (fun _ _ => .ok r) ot) continueOracle "p"
        { steps := [.call "search_literature" { genes := some (.inr [A, B]) } none,
                    .call "search_literature" { genes := some (.inr [B, C]) } none],
          i := 1,
          history := [{ step := "search_literature",
                        args := { genes := some (.inr [A, B]) }, result := r }],
          bus := [], searched := [A, B] }
        { genes := some (.inr [B, C]) } none rfl]
      dsimp only
      rw [hnew]
      rfl
    rw [hstep 2 _ _ hb1 ⟨by simp [initState], by simp [initState]⟩,
      hstep 1 _ _ hb2 ⟨by simp, by norm_num⟩]
    rfl

/-- C5 witness: skipping a fully-covered literature step at a concrete
state, and the `[A, B]` / `[B, C]` scenario at concrete distinct genes. -/
theorem literature_duplicate_guard_witness :
    loopBody (toolsMap benignTool benignTool benignTool benignTool) continueOracle "p"
        { steps := [.call "search_literature" { genes := some (.inr ["TP53"]) } none],
          i := 0, history := [], bus := [], searched := ["TP53"] }
      = (.next { steps := [.call "search_literature" { genes := some (.inr ["TP53"]) } none],
                 i := 1, history := [], bus := [], searched := ["TP53"] },
         [LogEvent.skip "search_literature" "duplicate_genes"]) ∧
    runLoop (toolsMap benignTool benignTool benignTool benignTool) continueOracle "p" 3
        (initState
          { path_id := "p",
            steps := [.call "search_literature" { genes := some (.inr ["G1", "G2"]) } none,
                      .call "search_literature" { genes := some (.inr ["G2", "G3"]) } none] })
      = some (.ok
          { steps := [.call "search_literature" { genes := some (.inr ["G1", "G2"]) } none,
                      .call "search_literature" { genes := some (.inr ["G2", "G3"]) } none],
            i := 2,
            history := [{ step := "search_literature",
                          args := { genes := some (.inr ["G1", "G2"]) }, result := {} },
                        { step := "search_literature",
                          args := { genes := some (.inr ["G3"]) }, result := {} }],
            bus := [], searched := ["G1", "G2", "G3"] }) := by
  constructor
  · exact literature_duplicate_guard.1
      (toolsMap benignTool benignTool benignTool benignTool) continueOracle "p"
      { steps := [.call "search_literature" { genes := some (.inr ["TP53"]) } none],
        i := 0, history := [], bus := [], searched := ["TP53"] }
      { genes := some (.inr ["TP53"]) } none rfl (by decide)
  · exact literature_duplicate_guard.2 "G1" "G2" "G3" {} benignTool benignTool benignTool
      (by decide) (by decide)

end Bishe
